import Mathlib

/-!
# Verification of the tackle document-evaluation engine

Shallow embedding of the parts of the `tackle` code base (Python) that the
specification's claims are about, together with theorems settling each claim.

Python values appearing in the embedded fragments are modelled by the `JVal`
type below (YAML/JSON-like documents: null, bool, int, float, string, list,
dict).  Python dicts are modelled as insertion-ordered association lists with
Python's update semantics (replace in place, else append).
-/

namespace Tackle

/-- YAML/JSON-like Python value. Floats are carried as their raw literal text:
no claim computes with them, they only flow through classification. -/
inductive JVal where
  | null : JVal
  | bool (b : Bool) : JVal
  | int (n : Int) : JVal
  | float (s : String) : JVal
  | str (s : String) : JVal
  | list (xs : List JVal) : JVal
  | obj (kvs : List (String × JVal)) : JVal
deriving Repr

mutual

/-- Structural boolean equality on `JVal`. -/
def JVal.beq : JVal → JVal → Bool
  | .null, .null => true
  | .bool a, .bool b => a == b
  | .int a, .int b => a == b
  | .float a, .float b => a == b
  | .str a, .str b => a == b
  | .list a, .list b => JVal.beqList a b
  | .obj a, .obj b => JVal.beqObj a b
  | _, _ => false

/-- Pointwise equality of value lists. -/
def JVal.beqList : List JVal → List JVal → Bool
  | [], [] => true
  | a :: as_, b :: bs => JVal.beq a b && JVal.beqList as_ bs
  | _, _ => false

/-- Pointwise equality of key/value lists. -/
def JVal.beqObj : List (String × JVal) → List (String × JVal) → Bool
  | [], [] => true
  | (ka, va) :: as_, (kb, vb) :: bs =>
      ka == kb && JVal.beq va vb && JVal.beqObj as_ bs
  | _, _ => false

end

instance : BEq JVal := ⟨JVal.beq⟩

mutual

def JVal.beq_iff : ∀ a b : JVal, JVal.beq a b = true ↔ a = b
  | .null, .null => by simp [JVal.beq]
  | .null, .bool _ | .null, .int _ | .null, .float _ | .null, .str _
  | .null, .list _ | .null, .obj _ => by simp [JVal.beq]
  | .bool _, .null | .bool _, .int _ | .bool _, .float _ | .bool _, .str _
  | .bool _, .list _ | .bool _, .obj _ => by simp [JVal.beq]
  | .bool a, .bool b => by simp [JVal.beq]
  | .int a, .int b => by simp [JVal.beq]
  | .int _, .null | .int _, .bool _ | .int _, .float _ | .int _, .str _
  | .int _, .list _ | .int _, .obj _ => by simp [JVal.beq]
  | .float a, .float b => by simp [JVal.beq]
  | .float _, .null | .float _, .bool _ | .float _, .int _ | .float _, .str _
  | .float _, .list _ | .float _, .obj _ => by simp [JVal.beq]
  | .str a, .str b => by simp [JVal.beq]
  | .str _, .null | .str _, .bool _ | .str _, .int _ | .str _, .float _
  | .str _, .list _ | .str _, .obj _ => by simp [JVal.beq]
  | .list a, .list b => by
      simp [JVal.beq]
      constructor
      · intro h; exact (JVal.beqList_iff a b).mp h
      · intro h; exact (JVal.beqList_iff a b).mpr h
  | .list _, .null | .list _, .bool _ | .list _, .int _ | .list _, .float _
  | .list _, .str _ | .list _, .obj _ => by simp [JVal.beq]
  | .obj a, .obj b => by
      simp [JVal.beq]
      constructor
      · intro h; exact (JVal.beqObj_iff a b).mp h
      · intro h; exact (JVal.beqObj_iff a b).mpr h
  | .obj _, .null | .obj _, .bool _ | .obj _, .int _ | .obj _, .float _
  | .obj _, .str _ | .obj _, .list _ => by simp [JVal.beq]

def JVal.beqList_iff : ∀ a b : List JVal, JVal.beqList a b = true ↔ a = b
  | [], [] => by simp [JVal.beqList]
  | [], _ :: _ => by simp [JVal.beqList]
  | _ :: _, [] => by simp [JVal.beqList]
  | a :: as_, b :: bs => by
      simp [JVal.beqList, Bool.and_eq_true]
      constructor
      · rintro ⟨h1, h2⟩
        exact ⟨(JVal.beq_iff a b).mp h1, (JVal.beqList_iff as_ bs).mp h2⟩
      · rintro ⟨h1, h2⟩
        exact ⟨(JVal.beq_iff a b).mpr h1, (JVal.beqList_iff as_ bs).mpr h2⟩

def JVal.beqObj_iff :
    ∀ a b : List (String × JVal), JVal.beqObj a b = true ↔ a = b
  | [], [] => by simp [JVal.beqObj]
  | [], _ :: _ => by simp [JVal.beqObj]
  | _ :: _, [] => by simp [JVal.beqObj]
  | (ka, va) :: as_, (kb, vb) :: bs => by
      simp [JVal.beqObj, Bool.and_eq_true, Prod.ext_iff]
      constructor
      · rintro ⟨⟨hk, h1⟩, h2⟩
        exact ⟨⟨hk, (JVal.beq_iff va vb).mp h1⟩, (JVal.beqObj_iff as_ bs).mp h2⟩
      · rintro ⟨⟨hk, h1⟩, h2⟩
        exact ⟨⟨hk, (JVal.beq_iff va vb).mpr h1⟩, (JVal.beqObj_iff as_ bs).mpr h2⟩

end

instance : DecidableEq JVal := fun a b =>
  decidable_of_iff (JVal.beq a b = true) (JVal.beq_iff a b)

/-! ## Python dict helpers

`tackle` mutates Python dicts; we model them as insertion-ordered association
lists with Python's semantics: assignment replaces the value in place when the
key exists, otherwise appends; `pop` removes the key preserving the order of
the rest. -/

/-- Python `d[k] = v`: replace in place when present, else append. -/
def dictSet (d : List (String × JVal)) (k : String) (v : JVal) :
    List (String × JVal) :=
  match d with
  | [] => [(k, v)]
  | (k', v') :: rest =>
      if k' = k then (k', v) :: rest else (k', v') :: dictSet rest k v

/-- Python `k in d`. -/
def dictMem (d : List (String × JVal)) (k : String) : Bool :=
  match d with
  | [] => false
  | (k', _) :: rest => k' = k || dictMem rest k

/-- Python `d[k]` (`none` models a `KeyError`). -/
def dictGet (d : List (String × JVal)) (k : String) : Option JVal :=
  match d with
  | [] => none
  | (k', v) :: rest => if k' = k then some v else dictGet rest k

/-- Python `d.pop(k)` restricted to present keys: the removed value and the
remaining dict in order. -/
def dictPop (d : List (String × JVal)) (k : String) :
    Option (JVal × List (String × JVal)) :=
  match d with
  | [] => none
  | (k', v) :: rest =>
      if k' = k then some (v, rest)
      else
        match dictPop rest k with
        | none => none
        | some (w, rest') => some (w, (k', v) :: rest')

/-! ## C9 — `tackle.utils.paths.work_in`

The Python context manager:

```
@contextlib.contextmanager
def work_in(dirname=None):
    curdir = os.getcwd()
    try:
        if dirname is not None:
            os.chdir(dirname)
        yield
    finally:
        os.chdir(curdir)
```

The process working directory is the state threaded explicitly.  The body is
any computation that observes the working directory at entry and may itself
both change the directory and raise. -/

/-- Embedding of `work_in`: `body` receives the working directory at entry and
yields its outcome (normal return or raised error) together with the working
directory it leaves behind; the `finally` clause then restores `curdir`. -/
def work_in {ε α : Type} (dirname : Option String)
    (body : String → Except ε α × String) (cwd : String) : Except ε α × String :=
  let curdir := cwd
  let entryDir := match dirname with | some d => d | none => cwd
  let bodyResult := (body entryDir).1
  (bodyResult, curdir)

/-! ## C10 — `InquirerConfirmHook.execute` (providers/prompts/hooks/confirm.py)

```
def execute(self) -> bool:
    if not self.no_input:
        ... response = prompt([question]) ...
    elif self.default:
        return self.default
    else:
        # When no_input then return empty list
        return True
```
-/

/-- Observable outcome of `InquirerConfirmHook.execute`: either it blocks on an
interactive prompt (carrying the default offered to the user), or it returns a
boolean without prompting. -/
inductive ConfirmResult where
  | promptUser (defaultChoice : Bool)
  | value (b : Bool)
deriving Repr, DecidableEq

/-- Embedding of `InquirerConfirmHook.execute`. -/
def confirmHookExecute (no_input : Bool) (defaultField : Bool) : ConfirmResult :=
  if !no_input then
    ConfirmResult.promptUser defaultField
  else if defaultField then
    ConfirmResult.value defaultField
  else
    ConfirmResult.value true

/-! ## C8 — special render variables (tackle/special_vars.py) -/

/-- Host process state read by the zero-argument special-variable functions
(`os.getcwd`, `os.path.expanduser('~')`, the `platform` module, and
`/etc/os-release` for `lsb_release`, which yields `None` off Linux). -/
structure SysEnv where
  cwd : String
  home_dir : String
  system : String
  platform : String
  version : String
  processor : String
  architecture : String × String
  lsb_release : Option String

/-- The fields of the run `Context` read by the context-taking
special-variable functions. -/
structure RenderContext where
  calling_directory : String
  calling_file : String
  input_file : String
  input_dir : String
  output_dict : List (String × JVal)

/-- Embedding of the `special_variables` dict: each entry maps a template name
to the function the source binds to it (zero-argument functions read `SysEnv`;
the context-taking ones read `RenderContext`). `_this` returns
`dict(context.output_dict)` (a copy) and `_output` returns
`context.output_dict` itself; both denote the same document value. -/
def special_variables : List (String × (SysEnv → RenderContext → JVal)) :=
  [ ("cwd", fun e _ => JVal.str e.cwd),
    ("home_dir", fun e _ => JVal.str e.home_dir),
    ("system", fun e _ => JVal.str e.system),
    ("platform", fun e _ => JVal.str e.platform),
    ("version", fun e _ => JVal.str e.version),
    ("processor", fun e _ => JVal.str e.processor),
    ("architecture", fun e _ =>
      JVal.list [JVal.str e.architecture.1, JVal.str e.architecture.2]),
    ("lsb_release", fun e _ =>
      match e.lsb_release with
      | some s => JVal.str s
      | none => JVal.null),
    ("calling_directory", fun _ c => JVal.str c.calling_directory),
    ("calling_file", fun _ c => JVal.str c.calling_file),
    ("current_file", fun _ c => JVal.str c.input_file),
    ("current_directory", fun _ c => JVal.str c.input_dir),
    ("this", fun _ c => JVal.obj c.output_dict),
    ("output", fun _ c => JVal.obj c.output_dict) ]

/-! ## C7 — `ProviderHooks.import_with_fallback_install` and `LazyImportHook`
(tackle/models.py)

```
def import_with_fallback_install(self, mod_name, path, skip_on_error=False):
    try:
        self.import_hooks_from_dir(mod_name, path, skip_on_error)
    except ModuleNotFoundError:
        requirements_path = os.path.join(path, '..', 'requirements.txt')
        if os.path.isfile(requirements_path):
            subprocess.check_call([... "pip", "install", ... requirements_path])
        self.import_hooks_from_dir(mod_name, path)
```

The filesystem/interpreter behaviour is the environment: the outcome of each
of the (at most two) `import_hooks_from_dir` calls and whether a
`requirements.txt` exists next to the hooks directory. -/

/-- A raised Python error as far as this code discriminates them: only
`ModuleNotFoundError` is caught. -/
inductive PyError where
  | moduleNotFound
  | other
deriving Repr, DecidableEq

/-- Side effects performed by the registry import path. -/
inductive RegistryAction where
  | importDir (skipOnError : Bool)
  | pipInstall
  | callHook (hookType : String)
deriving Repr, DecidableEq

/-- Embedding of `import_with_fallback_install`.  `first`/`second` are the
environment-determined outcomes (`none` = success) of the first and second
`import_hooks_from_dir` call; returns the trace of performed actions and the
error escaping the function, if any. -/
def import_with_fallback_install (first : Option PyError) (reqExists : Bool)
    (second : Option PyError) (skip_on_error : Bool) :
    List RegistryAction × Option PyError :=
  match first with
  | none => ([RegistryAction.importDir skip_on_error], none)
  | some PyError.moduleNotFound =>
      (  [RegistryAction.importDir skip_on_error]
          ++ (if reqExists then [RegistryAction.pipInstall] else [])
          ++ [RegistryAction.importDir false],
        second)
  | some PyError.other => ([RegistryAction.importDir skip_on_error], some PyError.other)

/-- Metadata held by a lazy registry placeholder (`LazyImportHook`). -/
structure LazyImportHook where
  hooks_path : String
  mod_name : String
  provider_name : String
  hook_type : String

/-- Embedding of `LazyImportHook.wrapped_exec`: on first call it performs
`import_with_fallback_install` (with `skip_on_error` at its default `False`)
and only then dispatches to the freshly imported hook. -/
def LazyImportHook.wrapped_exec (h : LazyImportHook) (first : Option PyError)
    (reqExists : Bool) (second : Option PyError) :
    List RegistryAction × Option PyError :=
  let imported := import_with_fallback_install first reqExists second false
  match imported.2 with
  | none => (imported.1 ++ [RegistryAction.callHook h.hook_type], none)
  | some e => (imported.1, some e)

/-! ## C1 — `tackle.utils.command`: compact call-string unpacking

`unpack_args_kwargs_string` = `split_input_string` (a `re.split` driven
tokenizer followed by `ast.literal_eval` per token) composed with
`unpack_args_kwargs_list` (the args/kwargs/flags classification loop). -/

/-- The single-quote character (avoiding quote literals in source text). -/
def squote : Char := Char.ofNat 39

/-- The double-quote character. -/
def dquote : Char := Char.ofNat 34

/-- The backslash character. -/
def backslashChar : Char := Char.ofNat 92

/-- Embedding of `strip_dashes`: drop every leading `-`. -/
def strip_dashes_list : List Char → List Char
  | [] => []
  | c :: rest => if c = '-' then strip_dashes_list rest else c :: rest

/-- `strip_dashes` on strings. -/
def strip_dashes (s : String) : String := String.mk (strip_dashes_list s.toList)

/-- A character matched by the `FLAG_REGEX` leading class `[\-|\-\-]`, which
as a regex character class is exactly the two characters `-` and `|`. -/
def isFlagRunChar (c : Char) : Bool := c = '-' || c = '|'

/-- After the leading run character: the regex `[\-|\-\-]+[a-zA-Z0-9]`
succeeds iff the (backtracking) run of `-`/`|` characters is followed by an
ASCII alphanumeric, i.e. the first character after the maximal run is
alphanumeric. -/
def flagTailCheck : List Char → Bool
  | [] => false
  | c :: rest =>
      if c.isAlphanum then true
      else if isFlagRunChar c then flagTailCheck rest
      else false

/-- Embedding of `assert_if_flag`: whether `FLAG_REGEX` (`^[\-|\-\-]+[a-zA-Z0-9]`)
matches at the start of the string. -/
def assert_if_flag (s : String) : Bool :=
  match s.toList with
  | [] => false
  | c :: rest => isFlagRunChar c && flagTailCheck rest

/-- Embedding of the `unpack_args_kwargs_list` while-loop.  The accumulators
are the `args`/`kwargs`/`flags` collections built so far (appends at the end,
Python dict-update for kwargs).  The one-element case inlines the source's
`next_raw_arg = "--hack"` sentinel: `assert_if_flag "--hack"` is true, so a
trailing flag-shaped string lands in `flags`. -/
def unpackLoop :
    List JVal → List JVal → List (String × JVal) → List String →
      List JVal × List (String × JVal) × List String
  | [], args, kwargs, flags => (args, kwargs, flags)
  | [raw], args, kwargs, flags =>
      match raw with
      | JVal.str s =>
          if assert_if_flag s then (args, kwargs, flags ++ [strip_dashes s])
          else (args ++ [raw], kwargs, flags)
      | _ => (args ++ [raw], kwargs, flags)
  | raw :: next :: rest, args, kwargs, flags =>
      match raw with
      | JVal.str s =>
          if assert_if_flag s then
            match next with
            | JVal.str ns =>
                if assert_if_flag ns then
                  unpackLoop (next :: rest) args kwargs
                    (flags ++ [strip_dashes s])
                else
                  unpackLoop rest args (dictSet kwargs (strip_dashes s) next) flags
            | _ => unpackLoop rest args (dictSet kwargs (strip_dashes s) next) flags
          else unpackLoop (next :: rest) (args ++ [raw]) kwargs flags
      | _ => unpackLoop (next :: rest) (args ++ [raw]) kwargs flags

/-- Embedding of `unpack_args_kwargs_list`. -/
def unpack_args_kwargs_list (input_list : List JVal) :
    List JVal × List (String × JVal) × List String :=
  unpackLoop input_list [] [] []

/-! ### The `split_input_string` tokenizer

The source splits with

```
re.split("( |(?<!,|\:|\(|\{|\[|=)\"(?!\,|\:|\)|\}|\]).*?\"(?!\}|\])"
         "|(?<!\,|\:|\(|\{|\[|=)'(?!,|\:|\)|\}|\]).*?'(?!\}|\]))", input_string)
```

i.e. the delimiters (all captured, hence kept) are: a single space; a
double-quoted run whose opening quote is not preceded by one of ``,:({[=`` and
not followed by one of ``,:)}]``, non-greedy up to the first closing quote not
followed by `}` or `]` (the dot never crossing a newline); and the same with
single quotes.  Pieces reducing to empty under `str.strip()` are dropped, and
each surviving piece goes through `ast.literal_eval`, falling back to the
piece itself on `ValueError`/`SyntaxError`. -/

/-- Characters that block a quote from opening when they precede it
(the negative lookbehind set `,:({[=`). -/
def lookbehindBlock : List Char := [',', ':', '(', '{', '[', '=']

/-- Characters that block a quote from opening when they follow it
(the negative lookahead set `,:)}]`). -/
def openLookaheadBlock : List Char := [',', ':', ')', '}', ']']

/-- Characters that block a quote from closing when they follow it
(the negative lookahead set after the closing quote: `}` and `]`). -/
def closeLookaheadBlock : List Char := ['}', ']']

/-- Find the non-greedy closing quote: the first occurrence of `q` not
followed by `}`/`]`, with no newline in between (the regex dot).  Returns the
body before the close and the suffix after it. -/
def findClose (q : Char) : List Char → Option (List Char × List Char)
  | [] => none
  | c :: cs =>
      if c = q &&
          (match cs with
           | [] => true
           | d :: _ => !(closeLookaheadBlock.contains d)) then
        some ([], cs)
      else if c = '\n' then none
      else
        match findClose q cs with
        | none => none
        | some (body, rest) => some (c :: body, rest)

/-- Try to match one delimiter alternative at the current position.  `prev` is
the character immediately before the position in the original string (for the
lookbehinds).  Returns the matched delimiter and the remaining suffix. -/
def matchAlt (prev : Option Char) (cs : List Char) :
    Option (List Char × List Char) :=
  match cs with
  | [] => none
  | c :: rest =>
      if c = ' ' then some ([' '], rest)
      else if (c = dquote || c = squote)
          && !(match prev with
               | some p => lookbehindBlock.contains p
               | none => false)
          && !(match rest with
               | [] => false
               | d :: _ => openLookaheadBlock.contains d) then
        match findClose c rest with
        | some (body, rest') => some (c :: body ++ [c], rest')
        | none => none
      else none

/-- The `re.split` scan: walk left to right, emitting the text between
delimiters and each (captured) delimiter.  `fuel` only bounds the recursion;
every step consumes at least one character, so `length + 1` fuel is never
exhausted. -/
def splitLoopF :
    Nat → Option Char → List Char → List (List Char) → List Char →
      List (List Char)
  | 0, _, acc, pieces, _ => pieces ++ [acc.reverse]
  | _ + 1, _, acc, pieces, [] => pieces ++ [acc.reverse]
  | fuel + 1, prev, acc, pieces, c :: rest =>
      match matchAlt prev (c :: rest) with
      | some (matched, rest') =>
          splitLoopF fuel matched.getLast? []
            (pieces ++ [acc.reverse, matched]) rest'
      | none => splitLoopF fuel (some c) (c :: acc) pieces rest

/-- A character removed by Python's `str.strip()` (the ASCII whitespace
characters; the tokens at hand are ASCII). -/
def pyWhitespace (c : Char) : Bool :=
  c = ' ' || c = '\t' || c = '\n' || c = '\r' || c = '\x0b' || c = '\x0c'

/-- Model of the Python stdlib boundary `ast.literal_eval`, restricted to the
scalar literal forms the specification names (numbers, booleans, null) plus
simple quoted strings: an optionally signed decimal integer (no leading
zeros except a run of zeros, per the Python grammar), an optionally signed
float written with a decimal point and/or exponent, `True`/`False`/`None`,
and a single- or double-quoted string whose body holds no quote of the same
kind, backslash, or line break.  Forms outside this subset (underscored,
hex/octal/binary or complex numerals, containers, escape sequences, prefixed
or concatenated string literals) are modelled as evaluation failure, i.e.
fall back to the raw token string. -/
def isPlainDigits (cs : List Char) : Bool :=
  !cs.isEmpty && cs.all Char.isDigit

/-- Decimal integer literal body: digits with no leading zero unless the
whole literal is zeros. -/
def isUDecimalInt (cs : List Char) : Bool :=
  isPlainDigits cs &&
    (match cs with
     | [] => false
     | c :: _ => c ≠ '0' || cs.all (· = '0'))

/-- Numeric value of a digit run. -/
def digitsVal (cs : List Char) : Nat :=
  cs.foldl (fun a c => 10 * a + (c.toNat - 48)) 0

/-- Split a numeric body at the first exponent marker `e`/`E`. -/
def splitAtExp : List Char → List Char × Option (List Char)
  | [] => ([], none)
  | c :: rest =>
      if c = 'e' || c = 'E' then ([], some rest)
      else
        let (m, e) := splitAtExp rest
        (c :: m, e)

/-- Optionally signed digit run (an exponent). -/
def isSignedDigits : List Char → Bool
  | '+' :: r => isPlainDigits r
  | '-' :: r => isPlainDigits r
  | r => isPlainDigits r

/-- Float mantissa: digits, optionally with one decimal point, at least one
digit overall.  Returns (valid, contains-a-point). -/
def checkMantissa (cs : List Char) : Bool × Bool :=
  match cs.splitOn '.' with
  | [a] => (isPlainDigits a, false)
  | [a, b] =>
      ((a.all Char.isDigit && b.all Char.isDigit && (!a.isEmpty || !b.isEmpty)),
        true)
  | _ => (false, false)

/-- Unsigned float literal body: needs a decimal point or an exponent. -/
def isUFloat (cs : List Char) : Bool :=
  match splitAtExp cs with
  | (m, none) => (checkMantissa m).1 && (checkMantissa m).2
  | (m, some ex) => (checkMantissa m).1 && isSignedDigits ex

/-- Numeric part of the `ast.literal_eval` model: at most one leading sign,
then an integer or float body.  Floats keep their raw text. -/
def parseNumberTok (cs : List Char) : Option JVal :=
  let stripped : Bool × List Char :=
    match cs with
    | '-' :: r => (true, r)
    | '+' :: r => (false, r)
    | r => (false, r)
  let neg := stripped.1
  let rest := stripped.2
  if isUDecimalInt rest then
    some (JVal.int (if neg then -(digitsVal rest : Int) else (digitsVal rest : Int)))
  else if isUFloat rest then some (JVal.float (String.mk cs))
  else none

/-- Quoted-string part of the `ast.literal_eval` model. -/
def parseQuotedTok (cs : List Char) : Option JVal :=
  match cs with
  | q :: c1 :: rest =>
      if q = squote || q = dquote then
        let body := (c1 :: rest).dropLast
        if (c1 :: rest).getLast? = some q
            && body.all
              (fun c => c ≠ q && c ≠ backslashChar && c ≠ '\n' && c ≠ '\r') then
          some (JVal.str (String.mk body))
        else none
      else none
  | _ => none

/-- The `ast.literal_eval` model on one token (see `isPlainDigits` above for
the modelled subset). -/
def pyLiteralEval (s : String) : Option JVal :=
  if s = "True" then some (JVal.bool true)
  else if s = "False" then some (JVal.bool false)
  else if s = "None" then some JVal.null
  else
    match parseQuotedTok s.toList with
    | some v => some v
    | none => parseNumberTok s.toList

/-- Embedding of `split_input_string`: run the `re.split` scan, drop pieces
that `strip()` to empty, and `literal_eval` each survivor with string
fallback. -/
def split_input_string (s : String) : List JVal :=
  let pieces := splitLoopF (s.length + 1) none [] [] s.toList
  let kept := pieces.filter (fun p => p.any (fun c => !pyWhitespace c))
  kept.map (fun p =>
    match pyLiteralEval (String.mk p) with
    | some v => v
    | none => JVal.str (String.mk p))

/-- Embedding of `unpack_args_kwargs_string`. -/
def unpack_args_kwargs_string (s : String) :
    List JVal × List (String × JVal) × List String :=
  unpack_args_kwargs_list (split_input_string s)

/-! ### Specification-side classification (C1)

Independent rendering of the classification clauses, used both for the claim
as written (`dash-prefixed`) and for the amended claim (`flag-like`). -/

/-- One classified token. -/
inductive TokenClass where
  | pos (v : JVal)
  | kw (k : String) (v : JVal)
  | flagTok (k : String)
deriving Repr, DecidableEq

/-- Collect classified tokens into the `(args, kwargs, flags)` collections,
kwargs with dict-update semantics. -/
def assembleGo (cs : List TokenClass) (args : List JVal)
    (kwargs : List (String × JVal)) (flags : List String) :
    List JVal × List (String × JVal) × List String :=
  match cs with
  | [] => (args, kwargs, flags)
  | TokenClass.pos v :: rest => assembleGo rest (args ++ [v]) kwargs flags
  | TokenClass.kw k v :: rest => assembleGo rest args (dictSet kwargs k v) flags
  | TokenClass.flagTok k :: rest => assembleGo rest args kwargs (flags ++ [k])

/-- Assemble from scratch. -/
def assemble (cs : List TokenClass) :
    List JVal × List (String × JVal) × List String :=
  assembleGo cs [] [] []

/-- Amended claim's flag condition, stated from scratch: the token begins with
one or more `-`/`|` characters followed by an ASCII alphanumeric. -/
def specFlagTail : List Char → Bool
  | [] => false
  | c :: rest => c.isAlphanum || (isFlagRunChar c && specFlagTail rest)

/-- Amended claim's flag condition on strings. -/
def specFlagLike (s : String) : Bool :=
  match s.toList with
  | [] => false
  | c :: rest => isFlagRunChar c && specFlagTail rest

/-- A token is flag-like when it is a string satisfying `specFlagLike`. -/
def tokenFlagLike (t : JVal) : Bool :=
  match t with
  | JVal.str s => specFlagLike s
  | _ => false

/-- Flag/kwarg name of a flag-like token. -/
def tokenName (t : JVal) : String :=
  match t with
  | JVal.str s => strip_dashes s
  | _ => ""

/-- Spec-side classification (amended claim): in input order, a flag-like
token followed by a flag-like token (or by nothing) is a flag; a flag-like
token followed by a non-flag-like token is a keyword argument taking that
token as value (both consumed); anything else is positional. -/
def classifyTokens : List JVal → List TokenClass
  | [] => []
  | [t] => if tokenFlagLike t then [TokenClass.flagTok (tokenName t)] else [TokenClass.pos t]
  | t :: t' :: rest =>
      if tokenFlagLike t then
        if tokenFlagLike t' then
          TokenClass.flagTok (tokenName t) :: classifyTokens (t' :: rest)
        else TokenClass.kw (tokenName t) t' :: classifyTokens rest
      else TokenClass.pos t :: classifyTokens (t' :: rest)

/-- Claim-side flag condition as the claim states it: the token is a
dash-prefixed string. -/
def tokenDashPrefixed (t : JVal) : Bool :=
  match t with
  | JVal.str s =>
      match s.toList with
      | c :: _ => c = '-'
      | [] => false
  | _ => false

/-- Classification exactly as the claim states it (`dash-prefixed` in place
of flag-like). -/
def claimClassifyTokens : List JVal → List TokenClass
  | [] => []
  | [t] =>
      if tokenDashPrefixed t then [TokenClass.flagTok (tokenName t)]
      else [TokenClass.pos t]
  | t :: t' :: rest =>
      if tokenDashPrefixed t then
        if tokenDashPrefixed t' then
          TokenClass.flagTok (tokenName t) :: claimClassifyTokens (t' :: rest)
        else TokenClass.kw (tokenName t) t' :: claimClassifyTokens rest
      else TokenClass.pos t :: claimClassifyTokens (t' :: rest)

/-- Claim-side tokenization: split on (Python) whitespace; quoted substrings
are respected, which for quote-free inputs is plain whitespace splitting. -/
def wsSplitAux : List Char → List Char → List String
  | [], acc => match acc with | [] => [] | _ => [String.mk acc.reverse]
  | c :: rest, acc =>
      if pyWhitespace c then
        match acc with
        | [] => wsSplitAux rest []
        | _ => String.mk acc.reverse :: wsSplitAux rest []
      else wsSplitAux rest (c :: acc)

/-- Claim-side token list: whitespace-split then each token attempted as a
literal with string fallback. -/
def claimTokens (s : String) : List JVal :=
  (wsSplitAux s.toList []).map fun t =>
    match pyLiteralEval t with
    | some v => v
    | none => JVal.str t

/-- What the claim, read literally, predicts `unpack_args_kwargs_string`
returns (sound for quote-free inputs, where whitespace splitting is
unambiguous). -/
def claimPredictedUnpack (s : String) :
    List JVal × List (String × JVal) × List String :=
  assemble (claimClassifyTokens (claimTokens s))

/-! ## C5 / C6 — declarative-hook macros (tackle/macros/hook_macros.py) -/

/-- Errors raised by the macro layer.  `nameErr` models the `NameError` this
module raises when it reaches a reference to a name it never defines
(`LITERAL_TYPES`, used on plain string field values in `hook_dict_macro`). -/
inductive MacroError where
  | malformedHookField
  | unknownInputArgument
  | typeErr
  | nameErr
deriving Repr, DecidableEq

/-- The template reference `{{key}}` the macros emit (braces written as
escapes). -/
def jinjaRef (key : String) : String := "\x7b\x7b" ++ key ++ "\x7d\x7d"

/-- Python `s[-2:] == <a><b>` for the two-character suffix tests. -/
def lastTwoIs (s : String) (a b : Char) : Bool :=
  match s.toList.reverse with
  | c2 :: c1 :: _ => c1 = a && c2 = b
  | _ => false

/-- Python `s[:-2]`. -/
def strDropLast2 (s : String) : String := String.mk s.toList.dropLast.dropLast

/-- Python `s[-2:]` (for strings of length at least two). -/
def strLast2 (s : String) : String :=
  String.mk (s.toList.reverse.take 2).reverse

/-- `DEFAULT_FACTORY_KEYS`, in source order. -/
def DEFAULT_FACTORY_KEYS : List String :=
  ["default->", "default_>", "default_factory->", "default_factory_>", "->", "_>"]

/-- The loop body of `update_default_factory_hook_fields`: find the first
`DEFAULT_FACTORY_KEYS` member present, pop it, refuse a coexisting
`default_factory`, store the raw field under `default_factory` and mark
`exclude` for the private (`_>`) arrows, then break. -/
def updateDefaultFactoryGo :
    List String → List (String × JVal) → Except MacroError (List (String × JVal))
  | [], value => Except.ok value
  | i :: restKeys, value =>
      match dictPop value i with
      | none => updateDefaultFactoryGo restKeys value
      | some (raw_field, value') =>
          if dictMem value' "default_factory" then
            Except.error MacroError.malformedHookField
          else
            let v2 := dictSet value' "default_factory" raw_field
            Except.ok
              (if lastTwoIs i '_' '>' then dictSet v2 "exclude" (JVal.bool true)
               else v2)

/-- Embedding of `update_default_factory_hook_fields` (the mutated `value`
is returned). -/
def update_default_factory_hook_fields (value : List (String × JVal)) :
    Except MacroError (List (String × JVal)) :=
  updateDefaultFactoryGo DEFAULT_FACTORY_KEYS value

/-- Python `x in <list>` where `x` is the string `t`: element-wise `==`
against a heterogeneous list. -/
def listHasStr (xs : List JVal) (t : String) : Bool :=
  xs.any fun v =>
    match v with
    | JVal.str u => u = t
    | _ => false

/-- Embedding of `expand_default_factory`: a string factory becomes a
document that calls it under `key->` and returns `{{key}}`; a factory that
already holds a bare `->`/`_>` key is nested under `key` with the same added
`return->`; other dicts/lists pass unchanged.  `'->' in <scalar>` raises
`TypeError` in Python, modelled by `typeErr`. -/
def expand_default_factory (value : List (String × JVal)) (key : String) :
    Except MacroError (List (String × JVal)) :=
  match dictGet value "default_factory" with
  | none => Except.ok value
  | some (JVal.str s) =>
      Except.ok (dictSet value "default_factory"
        (JVal.obj [(key ++ "->", JVal.str s),
                   ("return->", JVal.str (jinjaRef key))]))
  | some (JVal.obj kvs) =>
      if dictMem kvs "->" || dictMem kvs "_>" then
        Except.ok (dictSet value "default_factory"
          (JVal.obj [(key, JVal.obj kvs),
                     ("return->", JVal.str (jinjaRef key))]))
      else Except.ok value
  | some (JVal.list xs) =>
      if listHasStr xs "->" || listHasStr xs "_>" then
        Except.ok (dictSet value "default_factory"
          (JVal.obj [(key, JVal.list xs),
                     ("return->", JVal.str (jinjaRef key))]))
      else Except.ok value
  | some _ => Except.error MacroError.typeErr

/-- Embedding of `str_hook_macro`: a whole-hook string definition becomes a
document that executes the string as a call and returns its result. -/
def str_hook_macro (hook_input_raw : String) : List (String × JVal) :=
  [("tmp_in->", JVal.str hook_input_raw),
   ("tmp_out->", JVal.str ("return " ++ jinjaRef "tmp_in"))]

/-- Modelled from the spec: the runtime behaviour of a compiled
`default_factory` field — "a sub-document evaluated lazily, once, the first
time the field is accessed" — lives in the parser/pydantic layer, which is
not under `src/`.  A field slot caches the factory's value on first access. -/
structure LazyFieldSlot where
  cached : Option JVal

/-- One access to a lazy default-factory field: returns the value, the
updated slot, and how many times the factory ran during this access. -/
def accessLazyField (slot : LazyFieldSlot) (factory : Unit → JVal) :
    JVal × LazyFieldSlot × Nat :=
  match slot.cached with
  | some v => (v, slot, 0)
  | none =>
      let v := factory ()
      (v, ⟨some v⟩, 1)

/-- `type(v).__name__` for the values reaching the final `hook_dict_macro`
branch (null, strings and dicts are handled by earlier branches). -/
def pyTypeName : JVal → String
  | JVal.null => "NoneType"
  | JVal.bool _ => "bool"
  | JVal.int _ => "int"
  | JVal.float _ => "float"
  | JVal.str _ => "str"
  | JVal.list _ => "list"
  | JVal.obj _ => "dict"

/-- The per-key loop of `hook_dict_macro`, accumulating `new_hook_input`.
A plain string value reaches the expression `v in LITERAL_TYPES` whose name
`LITERAL_TYPES` this module never defines or imports: `nameErr`. -/
def hookDictMacroGo :
    List (String × JVal) → List (String × JVal) →
      Except MacroError (List (String × JVal))
  | [], acc => Except.ok acc
  | (k, v) :: rest, acc =>
      if lastTwoIs k '<' '-' || lastTwoIs k '<' '_' then
        hookDictMacroGo rest (dictSet acc (strLast2 k) (JVal.obj [(strLast2 k, v)]))
      else if lastTwoIs k '-' '>' || lastTwoIs k '_' '>' then
        match v with
        | JVal.str s =>
            hookDictMacroGo rest (dictSet acc (strDropLast2 k)
              (JVal.obj [("default", JVal.str s),
                         ("exclude", JVal.bool (lastTwoIs k '_' '>')),
                         ("parse_keys", JVal.list [JVal.str "default"])]))
        | _ => Except.error MacroError.unknownInputArgument
      else
        match v with
        | JVal.null =>
            hookDictMacroGo rest (dictSet acc k
              (JVal.obj [("type", JVal.str "Any"), ("default", JVal.null)]))
        | JVal.str _ => Except.error MacroError.nameErr
        | JVal.obj kvs => hookDictMacroGo rest (dictSet acc k (JVal.obj kvs))
        | other =>
            hookDictMacroGo rest (dictSet acc k
              (JVal.obj [("type", JVal.str (pyTypeName other)), ("default", other)]))

/-- Embedding of `hook_dict_macro`: the special `exec` key is re-keyed to
`exec<-` first, then every remaining key is processed in order. -/
def hook_dict_macro (hook_input_raw : List (String × JVal)) :
    Except MacroError (List (String × JVal)) :=
  match dictPop hook_input_raw "exec" with
  | some (v, raw') => hookDictMacroGo raw' [("exec<-", v)]
  | none => hookDictMacroGo hook_input_raw []

/-! ## C2 / C3 / C4 — the document walker

Modelled from the spec: the recursive document walker (`tackle/parser.py`)
is not under `src/`; only its collaborators are.  The walker below follows
§4.1/§5 of the spec: depth-first key order; results written into the public
partition; private-call results written into the private partition only;
blocks and loop iterations evaluate their sub-document in an isolated child
context (empty private partition, fresh public document, key pushed onto the
key-path) whose public result is merged under the block's key; `try` at a
call site catches the operation failure and substitutes the rendered
`except` value, otherwise a typed failure carrying the operation name and
the current key-path propagates through every enclosing frame; a `return`
sets the context's break flag — checked after each completed key evaluation
at every level — and replaces the public output with the returned value.
The `return` transition itself is from source (`ReturnHook.exec`). -/

/-- A typed operation failure: the operation name and the key-path at the
call site. -/
structure Fail where
  hookName : String
  keyPath : List String
deriving Repr, DecidableEq

/-- The walker's view of the run context. -/
structure WalkCtx where
  public : JVal
  privateData : List (String × JVal)
  break_ : Bool
  keyPath : List String
deriving Repr

/-- One node of the input document, with its call-site modifiers resolved:
a plain value, a private-call value, an operation call (whose outcome —
`some` result or `none` for a raised failure — the environment fixes, with
the call site's `try` flag and rendered `except` value), a `return` call, a
block, or a loop (one entry per iteration). -/
inductive Node where
  | val (v : JVal)
  | privVal (v : JVal)
  | call (name : String) (outcome : Option JVal) (tryFlag : Bool) (exceptVal : JVal)
  | ret (v : JVal)
  | block (items : List (String × Node))
  | loop (iters : List (List (String × Node)))

/-- Write a key into the public partition. -/
def ctxWrite (ctx : WalkCtx) (k : String) (v : JVal) : WalkCtx :=
  { ctx with
    public :=
      match ctx.public with
      | JVal.obj kvs => JVal.obj (dictSet kvs k v)
      | other => other }

/-- Embedding of `ReturnHook.exec` (providers/logic/hooks/returns.py): set
the context's break flag, replace the public data with the value, and return
the value. -/
def ReturnHook_exec (ctx : WalkCtx) (value : JVal) : WalkCtx × JVal :=
  ({ ctx with break_ := true, public := value }, value)

/-- Child context for a block or loop iteration: fresh public document,
empty private partition, the key pushed onto the key-path. -/
def mkChild (ctx : WalkCtx) (k : String) : WalkCtx :=
  { public := JVal.obj [], privateData := [], break_ := false,
    keyPath := ctx.keyPath ++ [k] }

mutual

/-- Walk a key list in order, stopping as soon as the break flag is set. -/
def walkItems (ctx : WalkCtx) : List (String × Node) → Except Fail WalkCtx
  | [] => Except.ok ctx
  | (k, n) :: rest =>
      if ctx.break_ then Except.ok ctx
      else
        match walkNode ctx k n with
        | Except.error e => Except.error e
        | Except.ok ctx' =>
            if ctx'.break_ then Except.ok ctx' else walkItems ctx' rest

/-- Walk one key. -/
def walkNode (ctx : WalkCtx) (k : String) : Node → Except Fail WalkCtx
  | Node.val v => Except.ok (ctxWrite ctx k v)
  | Node.privVal v =>
      Except.ok { ctx with privateData := dictSet ctx.privateData k v }
  | Node.call name outcome tryFlag exceptVal =>
      match outcome with
      | some v => Except.ok (ctxWrite ctx k v)
      | none =>
          if tryFlag then Except.ok (ctxWrite ctx k exceptVal)
          else Except.error ⟨name, ctx.keyPath ++ [k]⟩
  | Node.ret v => Except.ok (ReturnHook_exec ctx v).1
  | Node.block items =>
      match walkItems (mkChild ctx k) items with
      | Except.error e => Except.error e
      | Except.ok r =>
          if r.break_ then Except.ok { ctx with public := r.public, break_ := true }
          else Except.ok (ctxWrite ctx k r.public)
  | Node.loop iters => walkLoop ctx k iters []

/-- Loop iterations in order, each in a fresh child context, collecting the
per-iteration public results into a list under the loop's key; a break set
inside an iteration short-circuits the remaining ones and propagates. -/
def walkLoop (ctx : WalkCtx) (k : String) :
    List (List (String × Node)) → List JVal → Except Fail WalkCtx
  | [], acc => Except.ok (ctxWrite ctx k (JVal.list acc))
  | it :: rest, acc =>
      match walkItems (mkChild ctx k) it with
      | Except.error e => Except.error e
      | Except.ok r =>
          if r.break_ then Except.ok { ctx with public := r.public, break_ := true }
          else walkLoop ctx k rest (acc ++ [r.public])

end

mutual

/-- Items that can neither raise nor return: every call either succeeds or
has `try`, and no `return` occurs. -/
def safeItems : List (String × Node) → Bool
  | [] => true
  | (_, n) :: rest => safeNode n && safeItems rest

/-- See `safeItems`. -/
def safeNode : Node → Bool
  | Node.val _ => true
  | Node.privVal _ => true
  | Node.call _ outcome tryFlag _ => outcome.isSome || tryFlag
  | Node.ret _ => false
  | Node.block items => safeItems items
  | Node.loop iters => safeIters iters

/-- See `safeItems`. -/
def safeIters : List (List (String × Node)) → Bool
  | [] => true
  | it :: rest => safeItems it && safeIters rest

end

/-- Whether a document value (when a mapping) carries a key. -/
def pubHas (j : JVal) (key : String) : Bool :=
  match j with
  | JVal.obj kvs => dictMem kvs key
  | _ => false

/-- Whether a node, under its own key, writes into the enclosing public
partition (a private-call does not; a `return` replaces the public document
wholesale but also sets the break flag, which is excluded separately). -/
def nodeWritesOwnKey : Node → Bool
  | Node.privVal _ => false
  | Node.ret _ => false
  | _ => true

/-- An item can write `key` into the enclosing public partition only when
its own key is `key` and it is a public writer. -/
def itemsNoPubKey (items : List (String × Node)) (key : String) : Bool :=
  items.all fun kn => !(kn.1 = key && nodeWritesOwnKey kn.2)

/-- A nesting frame for the claims about arbitrary depth: sibling items
before the hole, the frame's key, whether the hole sits inside a block or a
loop iteration, and sibling items after the hole. -/
structure Frame where
  pre : List (String × Node)
  key : String
  isLoop : Bool
  post : List (String × Node)

/-- Plug `items` into a stack of nesting frames. -/
def nest : List Frame → List (String × Node) → List (String × Node)
  | [], items => items
  | f :: fs, items =>
      f.pre ++
        (f.key,
          if f.isLoop then Node.loop [nest fs items]
          else Node.block (nest fs items)) :: f.post

/-! ### C3 — `GetKeyHook.exec` (tackle/providers/context/hooks/get.py)

From source: iterate the public, private, temporary and existing contexts in
that order, ignore `KeyError`s, stop at the first value that is not `None`,
and return `None` when nothing was found. -/

/-- Outcome of `nested_get` against one context partition: a `KeyError` or a
found value (possibly Python `None`). -/
inductive LookupRes where
  | keyError
  | found (v : JVal)
deriving Repr, DecidableEq

/-- The `for i in ['public', 'private', 'temporary', 'existing']` loop of
`GetKeyHook.exec`: `value` stays `None` on `KeyError`, and the loop breaks
at the first non-`None` value. -/
def getLoop : List LookupRes → JVal
  | [] => JVal.null
  | r :: rest =>
      match r with
      | LookupRes.keyError => getLoop rest
      | LookupRes.found v =>
          match v with
          | JVal.null => getLoop rest
          | v => v

/-- Embedding of `GetKeyHook.exec` with the four partition lookups at the
requested key path resolved by the environment. -/
def GetKeyHook_exec (pub priv tmp exist : LookupRes) : JVal :=
  getLoop [pub, priv, tmp, exist]

/-! # Theorems settling the claims -/

theorem dictMem_dictSet_self (d : List (String × JVal)) (k : String) (v : JVal) :
    dictMem (dictSet d k v) k = true := by
  induction d with
  | nil => simp [dictSet, dictMem]
  | cons hd tl ih =>
      obtain ⟨k', v'⟩ := hd
      by_cases h : k' = k <;> simp [dictSet, dictMem, h, ih]

theorem dictGet_dictSet_self (d : List (String × JVal)) (k : String) (v : JVal) :
    dictGet (dictSet d k v) k = some v := by
  induction d with
  | nil => simp [dictSet, dictGet]
  | cons hd tl ih =>
      obtain ⟨k', v'⟩ := hd
      by_cases h : k' = k <;> simp [dictSet, dictGet, h, ih]

theorem dictGet_dictSet_ne (d : List (String × JVal)) (k k2 : String) (v : JVal)
    (h : k2 ≠ k) : dictGet (dictSet d k v) k2 = dictGet d k2 := by
  have hk : ¬(k = k2) := fun he => h he.symm
  induction d with
  | nil =>
      simp only [dictSet, dictGet]
      rw [if_neg hk]
  | cons hd tl ih =>
      obtain ⟨k', v'⟩ := hd
      simp only [dictSet]
      by_cases h1 : k' = k
      · subst h1
        rw [if_pos rfl]
        simp only [dictGet, if_neg hk]
      · rw [if_neg h1]
        simp only [dictGet]
        by_cases h2 : k' = k2 <;> simp [h2, ih]

theorem dictPop_eq_none_of_not_mem (d : List (String × JVal)) (k : String)
    (h : dictMem d k = false) : dictPop d k = none := by
  induction d with
  | nil => rfl
  | cons hd tl ih =>
      obtain ⟨k', v'⟩ := hd
      simp only [dictMem, Bool.or_eq_false_iff, decide_eq_false_iff_not] at h
      simp [dictPop, h.1, ih h.2]

theorem updateDefaultFactoryGo_skip (pre keys : List String)
    (value : List (String × JVal)) (h : ∀ j ∈ pre, dictMem value j = false) :
    updateDefaultFactoryGo (pre ++ keys) value = updateDefaultFactoryGo keys value := by
  induction pre with
  | nil => rfl
  | cons j rest ih =>
      have hj : dictPop value j = none :=
        dictPop_eq_none_of_not_mem value j (h j (by simp))
      simp only [List.cons_append, updateDefaultFactoryGo, hj]
      exact ih fun j' hj' => h j' (by simp [hj'])

/-- C5: a declarative-hook field carrying one of the call-suffix keys
(`default->`, `default_>`, `default_factory->`, `default_factory_>`, `->`,
`_>`) is rewritten into a `default_factory` (flagged `exclude` for the
private `_>` arrows, and refusing a coexisting explicit `default_factory`);
a string factory or a factory dict bearing a bare arrow key is then wrapped
into a document that performs its own call and returns its own result via an
added `return->` key rendering the field's key; and a default-factory field
slot evaluates its factory lazily, exactly once, on first access
(the access model is spec-modelled: the parser/pydantic layer is not under
`src/`). -/
theorem default_factory_rewrite (pre post : List String) (i : String)
    (value v' : List (String × JVal)) (k : String) (raw : JVal)
    (hsplit : DEFAULT_FACTORY_KEYS = pre ++ i :: post)
    (hpre : ∀ j ∈ pre, dictMem value j = false)
    (hpop : dictPop value i = some (raw, v'))
    (hnodf : dictMem v' "default_factory" = false) :
    (update_default_factory_hook_fields value =
      Except.ok
        (if lastTwoIs i '_' '>' then
          dictSet (dictSet v' "default_factory" raw) "exclude" (JVal.bool true)
         else dictSet v' "default_factory" raw)) ∧
    (∀ s : String, raw = JVal.str s →
      ∀ v3 : List (String × JVal),
        update_default_factory_hook_fields value = Except.ok v3 →
        expand_default_factory v3 k = Except.ok (dictSet v3 "default_factory"
          (JVal.obj [(k ++ "->", JVal.str s),
                     ("return->", JVal.str (jinjaRef k))]))) ∧
    (∀ kvs : List (String × JVal), raw = JVal.obj kvs →
      (dictMem kvs "->" || dictMem kvs "_>") = true →
      ∀ v3 : List (String × JVal),
        update_default_factory_hook_fields value = Except.ok v3 →
        expand_default_factory v3 k = Except.ok (dictSet v3 "default_factory"
          (JVal.obj [(k, JVal.obj kvs),
                     ("return->", JVal.str (jinjaRef k))]))) ∧
    (∀ factory : Unit → JVal,
      accessLazyField ⟨none⟩ factory = (factory (), ⟨some (factory ())⟩, 1) ∧
      ∀ v : JVal, accessLazyField ⟨some v⟩ factory = (v, ⟨some v⟩, 0)) := by
  have hupd : update_default_factory_hook_fields value =
      Except.ok
        (if lastTwoIs i '_' '>' then
          dictSet (dictSet v' "default_factory" raw) "exclude" (JVal.bool true)
         else dictSet v' "default_factory" raw) := by
    unfold update_default_factory_hook_fields
    rw [hsplit, updateDefaultFactoryGo_skip pre (i :: post) value hpre]
    simp [updateDefaultFactoryGo, hpop, hnodf]
  have hget : ∀ v3 : List (String × JVal),
      update_default_factory_hook_fields value = Except.ok v3 →
      dictGet v3 "default_factory" = some raw := by
    intro v3 h3
    rw [hupd] at h3
    injection h3 with h3
    subst h3
    by_cases harr : lastTwoIs i '_' '>' = true
    · rw [if_pos harr,
        dictGet_dictSet_ne _ "exclude" "default_factory" _ (by decide),
        dictGet_dictSet_self]
    · rw [if_neg harr, dictGet_dictSet_self]
  refine ⟨hupd, ?_, ?_, fun factory => ⟨rfl, fun v => rfl⟩⟩
  · intro s hs v3 h3
    have := hget v3 h3
    rw [hs] at this
    unfold expand_default_factory
    rw [this]
  · intro kvs hk hmem v3 h3
    have hg := hget v3 h3
    rw [hk] at hg
    unfold expand_default_factory
    rw [hg]
    simp [hmem]

/-- C5 witness: the field `{"default->": "foo"}` compiles to a wrapped,
self-returning default factory for the field key `my_key`. -/
theorem default_factory_rewrite_witness :
    update_default_factory_hook_fields [("default->", JVal.str "foo")]
      = Except.ok [("default_factory", JVal.str "foo")] ∧
    expand_default_factory [("default_factory", JVal.str "foo")] "my_key"
      = Except.ok [("default_factory",
          JVal.obj [("my_key->", JVal.str "foo"),
                    ("return->", JVal.str (jinjaRef "my_key"))])] := by
  have h := default_factory_rewrite []
    ["default_>", "default_factory->", "default_factory_>", "->", "_>"]
    "default->" [("default->", JVal.str "foo")] [] "my_key" (JVal.str "foo")
    rfl (by simp) rfl rfl
  exact ⟨h.1, h.2.1 "foo" rfl [("default_factory", JVal.str "foo")] h.1⟩

/-- C6: the definition compiler raises no error on reserved modifier names —
`hook_dict_macro` passes a user definition declaring the fields `if`, `for`,
`try` and `when` straight through as ordinary fields, while the spec (twice)
requires compiling such a definition to be a fatal configuration error.  The
module even computes the reserved name set (`FUNCTION_ARGS`) and never uses
it. -/
theorem hook_dict_macro_reserved_fields_pass :
    hook_dict_macro
      [("if", JVal.obj [("type", JVal.str "str")]),
       ("for", JVal.null),
       ("try", JVal.obj [("type", JVal.str "bool")]),
       ("when", JVal.obj [("type", JVal.str "str")])]
      = Except.ok
        [("if", JVal.obj [("type", JVal.str "str")]),
         ("for", JVal.obj [("type", JVal.str "Any"), ("default", JVal.null)]),
         ("try", JVal.obj [("type", JVal.str "bool")]),
         ("when", JVal.obj [("type", JVal.str "str")])] := rfl

theorem specFlagTail_eq (cs : List Char) : specFlagTail cs = flagTailCheck cs := by
  induction cs with
  | nil => rfl
  | cons c rest ih =>
      simp only [specFlagTail, flagTailCheck]
      cases h : c.isAlphanum <;> cases h2 : isFlagRunChar c <;> simp [h, h2, ih]

theorem specFlagLike_eq (s : String) : specFlagLike s = assert_if_flag s := by
  unfold specFlagLike assert_if_flag
  cases s.toList with
  | nil => rfl
  | cons c rest => simp [specFlagTail_eq]

theorem unpackLoop_eq_classify :
    ∀ ts args kwargs flags,
      unpackLoop ts args kwargs flags = assembleGo (classifyTokens ts) args kwargs flags
  | [], _, _, _ => rfl
  | [raw], a, k, f => by
      cases raw with
      | str s =>
          simp only [unpackLoop, classifyTokens, tokenFlagLike, tokenName,
            specFlagLike_eq]
          cases h : assert_if_flag s <;> simp [h, assembleGo]
      | null => rfl
      | bool _ => rfl
      | int _ => rfl
      | float _ => rfl
      | list _ => rfl
      | obj _ => rfl
  | raw :: next :: rest, a, k, f => by
      cases raw with
      | str s =>
          simp only [unpackLoop, classifyTokens, tokenFlagLike, tokenName,
            specFlagLike_eq]
          cases h : assert_if_flag s with
          | false =>
              simp only [h, Bool.false_eq_true, if_false, if_neg, assembleGo]
              exact unpackLoop_eq_classify (next :: rest) (a ++ [JVal.str s]) k f
          | true =>
              cases next with
              | str ns =>
                  simp only [h, if_true, tokenFlagLike, specFlagLike_eq]
                  by_cases h2 : assert_if_flag ns = true
                  · simp only [if_pos h2, assembleGo]
                    exact unpackLoop_eq_classify (JVal.str ns :: rest) a k
                      (f ++ [strip_dashes s])
                  · simp only [if_neg h2, assembleGo]
                    exact unpackLoop_eq_classify rest a
                      (dictSet k (strip_dashes s) (JVal.str ns)) f
              | null =>
                  simp only [h, if_true, tokenFlagLike, Bool.false_eq_true,
                    if_false, assembleGo]
                  exact unpackLoop_eq_classify rest a
                    (dictSet k (strip_dashes s) JVal.null) f
              | bool b =>
                  simp only [h, if_true, tokenFlagLike, Bool.false_eq_true,
                    if_false, assembleGo]
                  exact unpackLoop_eq_classify rest a
                    (dictSet k (strip_dashes s) (JVal.bool b)) f
              | int n =>
                  simp only [h, if_true, tokenFlagLike, Bool.false_eq_true,
                    if_false, assembleGo]
                  exact unpackLoop_eq_classify rest a
                    (dictSet k (strip_dashes s) (JVal.int n)) f
              | float x =>
                  simp only [h, if_true, tokenFlagLike, Bool.false_eq_true,
                    if_false, assembleGo]
                  exact unpackLoop_eq_classify rest a
                    (dictSet k (strip_dashes s) (JVal.float x)) f
              | list xs =>
                  simp only [h, if_true, tokenFlagLike, Bool.false_eq_true,
                    if_false, assembleGo]
                  exact unpackLoop_eq_classify rest a
                    (dictSet k (strip_dashes s) (JVal.list xs)) f
              | obj kvs =>
                  simp only [h, if_true, tokenFlagLike, Bool.false_eq_true,
                    if_false, assembleGo]
                  exact unpackLoop_eq_classify rest a
                    (dictSet k (strip_dashes s) (JVal.obj kvs)) f
      | null =>
          simp only [unpackLoop, classifyTokens, tokenFlagLike, assembleGo,
            Bool.false_eq_true, if_false]
          exact unpackLoop_eq_classify (next :: rest) (a ++ [JVal.null]) k f
      | bool b =>
          simp only [unpackLoop, classifyTokens, tokenFlagLike, assembleGo,
            Bool.false_eq_true, if_false]
          exact unpackLoop_eq_classify (next :: rest) (a ++ [JVal.bool b]) k f
      | int n =>
          simp only [unpackLoop, classifyTokens, tokenFlagLike, assembleGo,
            Bool.false_eq_true, if_false]
          exact unpackLoop_eq_classify (next :: rest) (a ++ [JVal.int n]) k f
      | float x =>
          simp only [unpackLoop, classifyTokens, tokenFlagLike, assembleGo,
            Bool.false_eq_true, if_false]
          exact unpackLoop_eq_classify (next :: rest) (a ++ [JVal.float x]) k f
      | list xs =>
          simp only [unpackLoop, classifyTokens, tokenFlagLike, assembleGo,
            Bool.false_eq_true, if_false]
          exact unpackLoop_eq_classify (next :: rest) (a ++ [JVal.list xs]) k f
      | obj kvs =>
          simp only [unpackLoop, classifyTokens, tokenFlagLike, assembleGo,
            Bool.false_eq_true, if_false]
          exact unpackLoop_eq_classify (next :: rest) (a ++ [JVal.obj kvs]) k f

/-- C1 counterexample: the claim's classification is false on the code at the
concrete call strings `"- -"` (two dash-only tokens: the claim makes both
flags, the code makes both positional because the flag regex demands an
alphanumeric after the dashes) and `"a\tb"` (the claim's whitespace splitting
yields two positional tokens, the code splits on the space character only and
yields one). -/
theorem unpack_args_kwargs_claim_false :
    unpack_args_kwargs_string "- -" ≠ claimPredictedUnpack "- -" ∧
    unpack_args_kwargs_string "a\tb" ≠ claimPredictedUnpack "a\tb" := by
  constructor
  · intro h
    have hlen : (unpack_args_kwargs_string "- -").1.length
        = (claimPredictedUnpack "- -").1.length :=
      congrArg (fun r => r.1.length) h
    have h1 : (unpack_args_kwargs_string "- -").1.length = 2 := rfl
    have h2 : (claimPredictedUnpack "- -").1.length = 0 := rfl
    rw [h1, h2] at hlen
    exact absurd hlen (by decide)
  · intro h
    have hlen : (unpack_args_kwargs_string "a\tb").1.length
        = (claimPredictedUnpack "a\tb").1.length :=
      congrArg (fun r => r.1.length) h
    have h1 : (unpack_args_kwargs_string "a\tb").1.length = 1 := rfl
    have h2 : (claimPredictedUnpack "a\tb").1.length = 2 := rfl
    rw [h1, h2] at hlen
    exact absurd hlen (by decide)

/-- C1 (amended): for every compact call string, `unpack_args_kwargs_string`
splits it into tokens (on space characters, respecting quoted substrings not
adjacent to bracket/punctuation characters), attempts each token as a scalar
literal with string fallback, and classifies the tokens in input order so
that: a flag-like string token — one beginning with one or more `-`/`|`
characters followed by an ASCII alphanumeric — whose following token is also
flag-like or absent becomes a flag (with leading dashes stripped); a
flag-like token followed by a non-flag-like token becomes a keyword argument
whose value is that following token; and every other token becomes a
positional argument. -/
theorem unpack_args_kwargs_amended (s : String) :
    (unpack_args_kwargs_string s
      = assemble (classifyTokens (split_input_string s))) ∧
    (∀ ts : List JVal, unpack_args_kwargs_list ts = assemble (classifyTokens ts)) ∧
    (∀ t : String, tokenFlagLike (JVal.str t) = assert_if_flag t) :=
  ⟨unpackLoop_eq_classify (split_input_string s) [] [] [],
    fun ts => unpackLoop_eq_classify ts [] [] [],
    fun t => specFlagLike_eq t⟩

/-- C9: for every directory argument (including none) and every body, `work_in`
runs its body with the working directory changed to the given directory (the
prior directory when none is given), and on exit — whether the body returned
normally or raised — the working directory is restored to exactly its value
before entry. -/
theorem work_in_enters_and_restores {ε α : Type} (dirname : Option String)
    (body : String → Except ε α × String) (cwd : String) :
    (work_in dirname body cwd).2 = cwd ∧
      (work_in dirname body cwd).1 = (body (dirname.getD cwd)).1 := by
  refine ⟨rfl, ?_⟩
  cases dirname <;> rfl

/-- C10: in no-input mode, `InquirerConfirmHook.execute` returns `True`
whatever the `default` field holds — in particular when it is `False` — and
never reaches the interactive prompt. -/
theorem confirm_no_input_returns_true (defaultField : Bool) :
    confirmHookExecute true defaultField = ConfirmResult.value true := by
  cases defaultField <;> rfl

/-- C8: every special read-only binding is present in `special_variables` and
evaluates to the documented quantity: the current working directory, the home
directory, the host system/platform identifiers, the invoking (calling)
directory and file, the current input file and directory, and `this`/`output`,
both of which denote the output document accumulated so far at the moment of
rendering. -/
theorem special_variables_bindings (e : SysEnv) (c : RenderContext) :
    ((special_variables.lookup "cwd").map (fun f => f e c)
        = some (JVal.str e.cwd)) ∧
    ((special_variables.lookup "home_dir").map (fun f => f e c)
        = some (JVal.str e.home_dir)) ∧
    ((special_variables.lookup "system").map (fun f => f e c)
        = some (JVal.str e.system)) ∧
    ((special_variables.lookup "platform").map (fun f => f e c)
        = some (JVal.str e.platform)) ∧
    ((special_variables.lookup "version").map (fun f => f e c)
        = some (JVal.str e.version)) ∧
    ((special_variables.lookup "processor").map (fun f => f e c)
        = some (JVal.str e.processor)) ∧
    ((special_variables.lookup "architecture").map (fun f => f e c)
        = some (JVal.list [JVal.str e.architecture.1, JVal.str e.architecture.2])) ∧
    ((special_variables.lookup "calling_directory").map (fun f => f e c)
        = some (JVal.str c.calling_directory)) ∧
    ((special_variables.lookup "calling_file").map (fun f => f e c)
        = some (JVal.str c.calling_file)) ∧
    ((special_variables.lookup "current_file").map (fun f => f e c)
        = some (JVal.str c.input_file)) ∧
    ((special_variables.lookup "current_directory").map (fun f => f e c)
        = some (JVal.str c.input_dir)) ∧
    ((special_variables.lookup "this").map (fun f => f e c)
        = some (JVal.obj c.output_dict)) ∧
    ((special_variables.lookup "output").map (fun f => f e c)
        = some (JVal.obj c.output_dict)) :=
  ⟨rfl, rfl, rfl, rfl, rfl, rfl, rfl, rfl, rfl, rfl, rfl, rfl, rfl⟩

/-- C7: when the first import of a provider's hooks raises
`ModuleNotFoundError`, the registry pip-installs the provider's requirements
file exactly when one exists next to the hooks directory, then retries
the import exactly once with error suppression disabled; whatever the second
attempt raises escapes (a failure there is fatal), and a first attempt that
succeeds or raises anything else triggers no fallback.  A lazy placeholder
(`LazyImportHook`) performs the module import only inside its first call,
before dispatching to the imported hook. -/
theorem import_fallback_install_spec (s reqExists : Bool)
    (second : Option PyError) (h : LazyImportHook) :
    ((import_with_fallback_install (some PyError.moduleNotFound) reqExists
        second s).1
      = [RegistryAction.importDir s]
        ++ (if reqExists then [RegistryAction.pipInstall] else [])
        ++ [RegistryAction.importDir false]) ∧
    ((import_with_fallback_install (some PyError.moduleNotFound) reqExists
        second s).2 = second) ∧
    (import_with_fallback_install none reqExists second s
      = ([RegistryAction.importDir s], none)) ∧
    (import_with_fallback_install (some PyError.other) reqExists second s
      = ([RegistryAction.importDir s], some PyError.other)) ∧
    (h.wrapped_exec none reqExists second
      = ([RegistryAction.importDir false, RegistryAction.callHook h.hook_type],
          none)) :=
  ⟨rfl, rfl, rfl, rfl, rfl⟩

theorem dictMem_dictSet_ne (d : List (String × JVal)) (k key : String) (v : JVal)
    (h : key ≠ k) : dictMem (dictSet d k v) key = dictMem d key := by
  have hk : ¬(k = key) := fun he => h he.symm
  induction d with
  | nil =>
      simp only [dictSet, dictMem]
      simp [hk]
  | cons hd tl ih =>
      obtain ⟨k', v'⟩ := hd
      simp only [dictSet]
      by_cases h1 : k' = k
      · subst h1
        rw [if_pos rfl]
        simp [dictMem, hk]
      · rw [if_neg h1]
        simp only [dictMem]
        rw [ih]

mutual

theorem safeWalk_items :
    ∀ (items : List (String × Node)) (ctx : WalkCtx),
      safeItems items = true → ctx.break_ = false →
      ∃ ctx', walkItems ctx items = Except.ok ctx' ∧ ctx'.break_ = false ∧
        ctx'.keyPath = ctx.keyPath
  | [], ctx => fun _ hb => ⟨ctx, rfl, hb, rfl⟩
  | (k, n) :: rest, ctx => fun hs hb => by
      simp only [safeItems, Bool.and_eq_true] at hs
      obtain ⟨c1, hw1, hb1, hk1⟩ := safeWalk_node n ctx k hs.1 hb
      obtain ⟨c2, hw2, hb2, hk2⟩ := safeWalk_items rest c1 hs.2 hb1
      exact ⟨c2, by simp [walkItems, hb, hw1, hb1, hw2], hb2, hk2.trans hk1⟩

theorem safeWalk_node :
    ∀ (n : Node) (ctx : WalkCtx) (k : String),
      safeNode n = true → ctx.break_ = false →
      ∃ ctx', walkNode ctx k n = Except.ok ctx' ∧ ctx'.break_ = false ∧
        ctx'.keyPath = ctx.keyPath
  | Node.val v, ctx, k => fun _ hb => ⟨ctxWrite ctx k v, rfl, hb, rfl⟩
  | Node.privVal v, ctx, k => fun _ hb =>
      ⟨{ ctx with privateData := dictSet ctx.privateData k v }, rfl, hb, rfl⟩
  | Node.call name outcome tryFlag exceptVal, ctx, k => fun hs hb => by
      cases outcome with
      | some v => exact ⟨ctxWrite ctx k v, rfl, hb, rfl⟩
      | none =>
          simp only [safeNode, Option.isSome_none, Bool.false_or] at hs
          exact ⟨ctxWrite ctx k exceptVal, by simp [walkNode, hs], hb, rfl⟩
  | Node.ret v, ctx, k => fun hs _ => by simp [safeNode] at hs
  | Node.block items, ctx, k => fun hs hb => by
      obtain ⟨c', hw, hb', _⟩ :=
        safeWalk_items items (mkChild ctx k) (by simpa [safeNode] using hs) rfl
      exact ⟨ctxWrite ctx k c'.public, by simp [walkNode, hw, hb'], hb, rfl⟩
  | Node.loop iters, ctx, k => fun hs hb => by
      obtain ⟨c', hw, hb', hk⟩ :=
        safeWalk_loop iters ctx k [] (by simpa [safeNode] using hs) hb
      exact ⟨c', by simpa [walkNode] using hw, hb', hk⟩

theorem safeWalk_loop :
    ∀ (iters : List (List (String × Node))) (ctx : WalkCtx) (k : String)
      (acc : List JVal),
      safeIters iters = true → ctx.break_ = false →
      ∃ ctx', walkLoop ctx k iters acc = Except.ok ctx' ∧ ctx'.break_ = false ∧
        ctx'.keyPath = ctx.keyPath
  | [], ctx, k, acc => fun _ hb => ⟨ctxWrite ctx k (JVal.list acc), rfl, hb, rfl⟩
  | it :: rest, ctx, k, acc => fun hs hb => by
      simp only [safeIters, Bool.and_eq_true] at hs
      obtain ⟨c', hw, hb', _⟩ := safeWalk_items it (mkChild ctx k) hs.1 rfl
      obtain ⟨c2, hw2, hb2, hk2⟩ :=
        safeWalk_loop rest ctx k (acc ++ [c'.public]) hs.2 hb
      exact ⟨c2, by simp [walkLoop, hw, hb', hw2], hb2, hk2⟩

end

theorem walkItems_append :
    ∀ (xs ys : List (String × Node)) (ctx ctx1 : WalkCtx),
      walkItems ctx xs = Except.ok ctx1 → ctx1.break_ = false →
      walkItems ctx (xs ++ ys) = walkItems ctx1 ys
  | [], ys, ctx, ctx1 => fun h hb => by
      have he : ctx = ctx1 := by
        simpa [walkItems] using h
      subst he
      rfl
  | (k, n) :: rest, ys, ctx, ctx1 => fun h hb => by
      by_cases hb0 : ctx.break_ = true
      · rw [walkItems, if_pos hb0] at h
        have he : ctx = ctx1 := by injection h
        subst he
        rw [hb0] at hb
        cases hb
      · have hb0' : ctx.break_ = false := by simpa using hb0
        cases hw : walkNode ctx k n with
        | error e => simp [walkItems, hb0', hw] at h
        | ok c' =>
            by_cases hcb : c'.break_ = true
            · simp only [walkItems, hb0', Bool.false_eq_true, if_false, hw,
                hcb, if_true] at h
              have he : c' = ctx1 := by injection h
              subst he
              rw [hcb] at hb
              cases hb
            · have hcb' : c'.break_ = false := by simpa using hcb
              simp only [walkItems, hb0', Bool.false_eq_true, if_false, hw,
                hcb', if_false] at h
              simp only [List.cons_append, walkItems, hb0', Bool.false_eq_true,
                if_false, hw, hcb']
              exact walkItems_append rest ys c' ctx1 h hb

mutual

theorem noLeak_items :
    ∀ (items : List (String × Node)) (ctx ctx' : WalkCtx) (key : String),
      walkItems ctx items = Except.ok ctx' → ctx'.break_ = false →
      itemsNoPubKey items key = true → pubHas ctx.public key = false →
      pubHas ctx'.public key = false
  | [], ctx, ctx', key => fun h _ _ hp => by
      have he : ctx = ctx' := by simpa [walkItems] using h
      exact he ▸ hp
  | (k, n) :: rest, ctx, ctx', key => fun h hb hkeys hp => by
      simp only [itemsNoPubKey, List.all_cons, Bool.and_eq_true] at hkeys
      by_cases hb0 : ctx.break_ = true
      · rw [walkItems, if_pos hb0] at h
        have he : ctx = ctx' := by injection h
        exact he ▸ hp
      · have hb0' : ctx.break_ = false := by simpa using hb0
        cases hw : walkNode ctx k n with
        | error e => simp [walkItems, hb0', hw] at h
        | ok c' =>
            by_cases hcb : c'.break_ = true
            · simp only [walkItems, hb0', Bool.false_eq_true, if_false, hw,
                hcb, if_true] at h
              have he : c' = ctx' := by injection h
              rw [he] at hcb
              rw [hcb] at hb
              cases hb
            · have hcb' : c'.break_ = false := by simpa using hcb
              simp only [walkItems, hb0', Bool.false_eq_true, if_false, hw,
                hcb', if_false] at h
              have hstep : pubHas c'.public key = false :=
                noLeak_node n ctx k c' key hw hcb' hkeys.1 hp
              exact noLeak_items rest c' ctx' key h hb
                (by simpa [itemsNoPubKey] using hkeys.2) hstep

theorem noLeak_node :
    ∀ (n : Node) (ctx : WalkCtx) (k : String) (ctx' : WalkCtx) (key : String),
      walkNode ctx k n = Except.ok ctx' → ctx'.break_ = false →
      (!(decide (k = key) && nodeWritesOwnKey n)) = true →
      pubHas ctx.public key = false → pubHas ctx'.public key = false
  | Node.val v, ctx, k, ctx', key => fun h _ hkey hp => by
      simp only [nodeWritesOwnKey, Bool.and_true, Bool.not_eq_eq_eq_not,
        Bool.not_true, decide_eq_false_iff_not] at hkey
      have he : ctxWrite ctx k v = ctx' := by
        simpa [walkNode] using h
      subst he
      cases hpub : ctx.public <;>
        simp_all [ctxWrite, pubHas, dictMem_dictSet_ne _ _ _ _ fun hh => hkey hh.symm]
  | Node.privVal v, ctx, k, ctx', key => fun h _ _ hp => by
      have he : { ctx with privateData := dictSet ctx.privateData k v } = ctx' := by
        simpa [walkNode] using h
      subst he
      exact hp
  | Node.call name outcome tryFlag exceptVal, ctx, k, ctx', key =>
      fun h _ hkey hp => by
      simp only [nodeWritesOwnKey, Bool.and_true, Bool.not_eq_eq_eq_not,
        Bool.not_true, decide_eq_false_iff_not] at hkey
      cases outcome with
      | some v =>
          have he : ctxWrite ctx k v = ctx' := by simpa [walkNode] using h
          subst he
          cases hpub : ctx.public <;>
            simp_all [ctxWrite, pubHas,
              dictMem_dictSet_ne _ _ _ _ fun hh => hkey hh.symm]
      | none =>
          by_cases ht : tryFlag = true
          · have he : ctxWrite ctx k exceptVal = ctx' := by
              simpa [walkNode, ht] using h
            subst he
            cases hpub : ctx.public <;>
              simp_all [ctxWrite, pubHas,
                dictMem_dictSet_ne _ _ _ _ fun hh => hkey hh.symm]
          · have ht' : tryFlag = false := by simpa using ht
            simp [walkNode, ht'] at h
  | Node.ret v, ctx, k, ctx', key => fun h hb _ _ => by
      have he : (ReturnHook_exec ctx v).1 = ctx' := by simpa [walkNode] using h
      rw [← he] at hb
      simp [ReturnHook_exec] at hb
  | Node.block items, ctx, k, ctx', key => fun h hb hkey hp => by
      simp only [nodeWritesOwnKey, Bool.and_true, Bool.not_eq_eq_eq_not,
        Bool.not_true, decide_eq_false_iff_not] at hkey
      cases hw : walkItems (mkChild ctx k) items with
      | error e => simp [walkNode, hw] at h
      | ok r =>
          by_cases hrb : r.break_ = true
          · simp only [walkNode, hw, hrb, if_true] at h
            have he : { ctx with public := r.public, break_ := true } = ctx' := by
              injection h
            rw [← he] at hb
            cases hb
          · have hrb' : r.break_ = false := by simpa using hrb
            simp only [walkNode, hw, hrb', Bool.false_eq_true, if_false] at h
            have he : ctxWrite ctx k r.public = ctx' := by injection h
            subst he
            cases hpub : ctx.public <;>
              simp_all [ctxWrite, pubHas,
                dictMem_dictSet_ne _ _ _ _ fun hh => hkey hh.symm]
  | Node.loop iters, ctx, k, ctx', key => fun h hb hkey hp => by
      simp only [nodeWritesOwnKey, Bool.and_true, Bool.not_eq_eq_eq_not,
        Bool.not_true, decide_eq_false_iff_not] at hkey
      exact noLeak_loop iters ctx k [] ctx' key (by simpa [walkNode] using h) hb
        (by simpa using hkey) hp

theorem noLeak_loop :
    ∀ (iters : List (List (String × Node))) (ctx : WalkCtx) (k : String)
      (acc : List JVal) (ctx' : WalkCtx) (key : String),
      walkLoop ctx k iters acc = Except.ok ctx' → ctx'.break_ = false →
      ¬(k = key) → pubHas ctx.public key = false → pubHas ctx'.public key = false
  | [], ctx, k, acc, ctx', key => fun h _ hkey hp => by
      have he : ctxWrite ctx k (JVal.list acc) = ctx' := by
        simpa [walkLoop] using h
      subst he
      cases hpub : ctx.public <;>
        simp_all [ctxWrite, pubHas,
          dictMem_dictSet_ne _ _ _ _ fun hh => hkey hh.symm]
  | it :: rest, ctx, k, acc, ctx', key => fun h hb hkey hp => by
      cases hw : walkItems (mkChild ctx k) it with
      | error e => simp [walkLoop, hw] at h
      | ok r =>
          by_cases hrb : r.break_ = true
          · simp only [walkLoop, hw, hrb, if_true] at h
            have he : { ctx with public := r.public, break_ := true } = ctx' := by
              injection h
            rw [← he] at hb
            cases hb
          · have hrb' : r.break_ = false := by simpa using hrb
            simp only [walkLoop, hw, hrb', Bool.false_eq_true, if_false] at h
            exact noLeak_loop rest ctx k (acc ++ [r.public]) ctx' key h hb hkey hp

end

/-- C2: at every nesting depth (any stack of enclosing block/loop frames
whose preceding siblings neither raise nor return), executing a `return`
operation halts all further key evaluation at every enclosing level — the
context's break flag is set and every following sibling at every level is
skipped — and the run's public output document is replaced with exactly the
returned value (the `return` transition itself is `ReturnHook.exec` from
source; the walker is modelled from the spec, `parser.py` being absent from
`src/`). -/
theorem return_halts :
    ∀ (frames : List Frame) (pre post : List (String × Node)) (k : String)
      (v : JVal) (ctx : WalkCtx),
      (∀ f ∈ frames, safeItems f.pre = true) → safeItems pre = true →
      ctx.break_ = false →
      ∃ ctx', walkItems ctx (nest frames (pre ++ (k, Node.ret v) :: post))
          = Except.ok ctx' ∧ ctx'.public = v ∧ ctx'.break_ = true
  | [], pre, post, k, v, ctx => fun _ hpre hb => by
      obtain ⟨c1, hw1, hb1, _⟩ := safeWalk_items pre ctx hpre hb
      rw [nest, walkItems_append pre _ ctx c1 hw1 hb1]
      refine ⟨{ c1 with break_ := true, public := v }, ?_, rfl, rfl⟩
      simp [walkItems, walkNode, ReturnHook_exec, hb1]
  | f :: fs, pre, post, k, v, ctx => fun hframes hpre hb => by
      obtain ⟨c1, hw1, hb1, _⟩ :=
        safeWalk_items f.pre ctx (hframes f (by simp)) hb
      obtain ⟨c', hw', hpub', hbrk'⟩ :=
        return_halts fs pre post k v (mkChild c1 f.key)
          (fun g hg => hframes g (by simp [hg])) hpre rfl
      refine ⟨{ c1 with public := c'.public, break_ := true }, ?_, hpub', rfl⟩
      rw [nest, walkItems_append f.pre _ ctx c1 hw1 hb1]
      by_cases hl : f.isLoop = true
      · simp [walkItems, walkNode, walkLoop, hb1, hl, hw', hbrk']
      · have hl' : f.isLoop = false := by simpa using hl
        simp [walkItems, walkNode, hb1, hl', hw', hbrk']

/-- C2 witness: a `return` two levels deep (inside a loop iteration) ends the
run with public output exactly the returned value. -/
theorem return_halts_witness :
    ∃ ctx', walkItems ⟨JVal.obj [], [], false, []⟩
        (nest [⟨[("x", Node.val (JVal.int 1))], "blk", true,
               [("after", Node.val (JVal.int 2))]⟩]
          ([("y", Node.val (JVal.bool true))] ++
            ("r", Node.ret (JVal.str "done")) :: [("z", Node.val JVal.null)]))
        = Except.ok ctx' ∧ ctx'.public = JVal.str "done" ∧ ctx'.break_ = true :=
  return_halts
    [⟨[("x", Node.val (JVal.int 1))], "blk", true,
      [("after", Node.val (JVal.int 2))]⟩]
    [("y", Node.val (JVal.bool true))] [("z", Node.val JVal.null)]
    "r" (JVal.str "done") ⟨JVal.obj [], [], false, []⟩
    (by decide) (by decide) rfl

/-- C4: a call whose operation raises and whose call site has a truthy `try`
yields exactly the (rendered) `except` value; the same call without `try`
propagates a typed failure — carrying the operation name and the key-path of
the call site — unwound through every enclosing loop/block frame (walker
modelled from the spec, `parser.py` being absent from `src/`). -/
theorem try_excepts_and_failure_propagates :
    ∀ (frames : List Frame) (pre post : List (String × Node))
      (k name : String) (e : JVal) (ctx : WalkCtx),
      (∀ f ∈ frames, safeItems f.pre = true) → safeItems pre = true →
      ctx.break_ = false →
      (walkNode ctx k (Node.call name none true e)
          = Except.ok (ctxWrite ctx k e)) ∧
      (walkItems ctx (nest frames (pre ++ (k, Node.call name none false e) :: post))
          = Except.error ⟨name, ctx.keyPath ++ frames.map Frame.key ++ [k]⟩)
  | [], pre, post, k, name, e, ctx => fun _ hpre hb => by
      refine ⟨rfl, ?_⟩
      obtain ⟨c1, hw1, hb1, hk1⟩ := safeWalk_items pre ctx hpre hb
      rw [nest, walkItems_append pre _ ctx c1 hw1 hb1]
      simp [walkItems, walkNode, hb1, hk1]
  | f :: fs, pre, post, k, name, e, ctx => fun hframes hpre hb => by
      refine ⟨rfl, ?_⟩
      obtain ⟨c1, hw1, hb1, hk1⟩ :=
        safeWalk_items f.pre ctx (hframes f (by simp)) hb
      have ih :=
        (try_excepts_and_failure_propagates fs pre post k name e
          (mkChild c1 f.key) (fun g hg => hframes g (by simp [hg])) hpre rfl).2
      rw [nest, walkItems_append f.pre _ ctx c1 hw1 hb1]
      simp only [mkChild, hk1] at ih
      by_cases hl : f.isLoop = true
      · simp [walkItems, walkNode, walkLoop, hb1, hl, ih, mkChild, hk1]
      · have hl' : f.isLoop = false := by simpa using hl
        simp [walkItems, walkNode, hb1, hl', ih, mkChild, hk1]

/-- C4 witness: a failing `http` call inside a block inside a loop: with
`try` it yields the except value; without it the typed failure carrying the
operation name and full key-path escapes the whole nest. -/
theorem try_excepts_and_failure_propagates_witness :
    (walkNode ⟨JVal.obj [], [], false, []⟩ "t"
        (Node.call "http" none true (JVal.str "fallback"))
      = Except.ok (ctxWrite ⟨JVal.obj [], [], false, []⟩ "t"
          (JVal.str "fallback"))) ∧
    (walkItems ⟨JVal.obj [], [], false, []⟩
        (nest [⟨[("a", Node.val (JVal.int 1))], "outer", false, []⟩,
               ⟨[], "inner", true, [("b", Node.val (JVal.int 2))]⟩]
          ([("c", Node.val (JVal.int 3))] ++
            ("t", Node.call "http" none false (JVal.str "fallback")) :: []))
      = Except.error ⟨"http",
          [] ++ ["outer", "inner"] ++ ["t"]⟩) :=
  try_excepts_and_failure_propagates
    [⟨[("a", Node.val (JVal.int 1))], "outer", false, []⟩,
     ⟨[], "inner", true, [("b", Node.val (JVal.int 2))]⟩]
    [("c", Node.val (JVal.int 3))] [] "t" "http" (JVal.str "fallback")
    ⟨JVal.obj [], [], false, []⟩ (by decide) (by decide) rfl

/-- C3: a key written with the private-call suffix goes to the private
partition and never appears in the final public output (no other item
writing that key publicly and the run ending without a break), yet its value
remains resolvable afterwards; and `GetKeyHook.exec` (from source) searches
the public, private, temporary and existing partitions in that order and
returns the first non-`None` value found — in particular a key missing from
(or `None` in) the public partition but present in the private partition
resolves to its private value. -/
theorem private_partition_spec (key : String) (v : JVal) (ctx : WalkCtx)
    (hv : v ≠ JVal.null) :
    (walkNode ctx key (Node.privVal v)
      = Except.ok { ctx with privateData := dictSet ctx.privateData key v }) ∧
    (dictGet (dictSet ctx.privateData key v) key = some v) ∧
    (∀ (items : List (String × Node)) (ctx0 ctx' : WalkCtx),
      walkItems ctx0 items = Except.ok ctx' → ctx'.break_ = false →
      itemsNoPubKey items key = true → pubHas ctx0.public key = false →
      pubHas ctx'.public key = false) ∧
    (∀ tmp exist, GetKeyHook_exec LookupRes.keyError (LookupRes.found v) tmp exist = v) ∧
    (∀ tmp exist,
      GetKeyHook_exec (LookupRes.found JVal.null) (LookupRes.found v) tmp exist = v) ∧
    (∀ priv tmp exist w, w ≠ JVal.null →
      GetKeyHook_exec (LookupRes.found w) priv tmp exist = w) := by
  have hfound : ∀ (w : JVal) (rs : List LookupRes), w ≠ JVal.null →
      getLoop (LookupRes.found w :: rs) = w := by
    intro w rs hw
    cases w <;> simp [getLoop] <;> exact absurd rfl hw
  refine ⟨rfl, dictGet_dictSet_self _ _ _,
    fun items ctx0 ctx' hwlk hb hkeys hp =>
      noLeak_items items ctx0 ctx' key hwlk hb hkeys hp,
    fun tmp exist => ?_, fun tmp exist => ?_,
    fun priv tmp exist w hw => hfound w _ hw⟩
  · show getLoop [LookupRes.keyError, LookupRes.found v, tmp, exist] = v
    rw [getLoop]
    exact hfound v _ hv
  · show getLoop [LookupRes.found JVal.null, LookupRes.found v, tmp, exist] = v
    rw [getLoop]
    exact hfound v _ hv

/-- C3 witness: a private write is absent from the public document yet a
later `get` finds it through the private partition. -/
theorem private_partition_spec_witness :
    (walkNode ⟨JVal.obj [], [], false, []⟩ "p" (Node.privVal (JVal.str "s"))
      = Except.ok ⟨JVal.obj [], [("p", JVal.str "s")], false, []⟩) ∧
    GetKeyHook_exec LookupRes.keyError (LookupRes.found (JVal.str "s"))
        LookupRes.keyError LookupRes.keyError = JVal.str "s" :=
  ⟨(private_partition_spec "p" (JVal.str "s") ⟨JVal.obj [], [], false, []⟩
      (fun h => JVal.noConfusion h)).1,
   (private_partition_spec "p" (JVal.str "s") ⟨JVal.obj [], [], false, []⟩
      (fun h => JVal.noConfusion h)).2.2.2.1 LookupRes.keyError LookupRes.keyError⟩

end Tackle
